import Mathlib

/-!
# Verification of the waveform-playlist audio engine

A shallow embedding, in Lean 4, of the core algorithms of the
`arraypress/waveform-playlist` player (source files `src/js/utils.js`,
`src/js/drawing.js`, `src/js/bpm.js`, `src/js/audio.js`, `src/js/core.js`):

* the envelope resampler `resampleData`,
* the six canvas drawing routines and their dispatch,
* onset detection and BPM estimation (`detectOnsets`, `detectBPM`),
* peak extraction and normalization (`extractPeaks`, `normalizePeaks`),
* the pre-supplied waveform-string normalization (`setWaveformData`), and
* the cross-instance play/pause exclusivity registry of `WaveformPlayer`.

Modelling conventions, applied throughout:

* JavaScript IEEE-754 doubles are modelled as exact rationals (`ℚ`); the
  algorithms under study use only `+ - * /`, `Math.floor`, `Math.ceil`,
  `Math.round`, `Math.abs`, `min`/`max` and comparisons, all of which are
  exact on `ℚ`.  Division by zero yields `0` on `ℚ` where JavaScript would
  yield `±Infinity`/`NaN`; every place where this matters is noted at the
  definition it affects.
* `Math.round x` is `⌊x + 1/2⌋` (round half toward `+∞`), `~~x` on a
  non-negative value is `⌊x⌋`.
* Typed arrays / audio channels are modelled as a length together with an
  index function `ℕ → ℚ`; plain JS number arrays as `List ℚ`.
* `for` loops are folds over the exact index sequence the loop visits; an
  in-loop `break` on a monotone condition is a `takeWhile` over that
  sequence.
-/

/- Rational arithmetic is marked `@[irreducible]` upstream, which blocks
`decide` on concrete envelope computations; restore `semireducible` locally
so concrete evaluations reduce.  Kernel checking is unaffected. -/
set_option allowUnsafeReducibility true
attribute [local semireducible] Rat.add Rat.mul Rat.sub Rat.inv Rat.ofScientific

/-! ## `Math.max(...xs)` over a spread argument list

`Math.max(...peaks)` on a non-empty list is the list maximum; on the empty
list JavaScript yields `-Infinity`, modelled here as `0` (every use in the
source guards the empty case so the two agree observably: a `maxPeak > 0`
test fails on both `-Infinity` and `0`). -/
def jsMax (l : List ℚ) : ℚ :=
  match l with
  | [] => 0
  | h :: t => t.foldl max h

theorem foldl_max_le {t : List ℚ} {a m : ℚ} (ha : a ≤ m)
    (ht : ∀ x ∈ t, x ≤ m) : t.foldl max a ≤ m := by
  induction t generalizing a with
  | nil => simpa using ha
  | cons y t ih =>
    simp only [List.foldl_cons]
    exact ih (max_le ha (ht y (by simp)))
      (fun x hx => ht x (by simp [hx]))

theorem le_foldl_max (t : List ℚ) (a : ℚ) : a ≤ t.foldl max a := by
  induction t generalizing a with
  | nil => simp
  | cons y t ih =>
    exact le_trans (le_max_left a y) (ih (max a y))

theorem mem_le_foldl_max {t : List ℚ} {x : ℚ} (hx : x ∈ t) (a : ℚ) :
    x ≤ t.foldl max a := by
  induction t generalizing a with
  | nil => cases hx
  | cons y t ih =>
    rcases List.mem_cons.mp hx with rfl | hx
    · exact le_trans (le_max_right a x) (le_foldl_max t (max a x))
    · exact ih hx (max a y)

/-- Every element of a list is bounded by `jsMax`. -/
theorem le_jsMax {l : List ℚ} {x : ℚ} (hx : x ∈ l) : x ≤ jsMax l := by
  cases l with
  | nil => cases hx
  | cons h t =>
    rcases List.mem_cons.mp hx with rfl | hx
    · exact le_foldl_max t x
    · exact mem_le_foldl_max hx h

theorem foldl_max_mem (t : List ℚ) (a : ℚ) :
    t.foldl max a = a ∨ t.foldl max a ∈ t := by
  induction t generalizing a with
  | nil => exact Or.inl rfl
  | cons y t ih =>
    simp only [List.foldl_cons]
    rcases ih (max a y) with h | h
    · rcases le_total y a with hay | hay
      · exact Or.inl (by rw [h, max_eq_left hay])
      · refine Or.inr ?_
        rw [h, max_eq_right hay]
        exact List.mem_cons_self y t
    · exact Or.inr (List.mem_cons_of_mem y h)

/-- `jsMax` of a non-empty list is attained. -/
theorem jsMax_mem {l : List ℚ} (hl : l ≠ []) : jsMax l ∈ l := by
  cases l with
  | nil => exact absurd rfl hl
  | cons h t =>
    rcases foldl_max_mem t h with he | he
    · simp [jsMax, he]
    · simp [jsMax, he]

/-! ## The resampler (`resampleData`, `src/js/utils.js`)

Upsampling is linear interpolation; downsampling is bucketed max-pooling
with a nearest-neighbour fallback for an empty bucket. -/

/-- The index sequence visited by the downsampling inner loop
`for (let j = start; j <= end && j < data.length; j++)`: both loop-exit
conditions are antitone in the increasing `j`, so the loop visits exactly
the `j ∈ [start, end]` with `j < data.length`. -/
def bucketJs (len targetLength i : ℕ) : List ℕ :=
  let bucketSize : ℚ := (len : ℚ) / (targetLength : ℚ)
  let start := (Int.floor ((i : ℚ) * bucketSize)).toNat
  let stop := (Int.floor (((i : ℚ) + 1) * bucketSize)).toNat
  (List.range' start (stop + 1 - start)).filter (fun j => j < len)

/-- One output value of the downsampling branch of `resampleData`:
the running `max` starts at `0` and is updated by `if (data[j] > max)`;
`count` is the number of loop iterations, and `count === 0` triggers the
nearest-neighbour fallback `data[min(round(i*bucketSize), len-1)]`. -/
def downsampleAt (data : List ℚ) (targetLength i : ℕ) : ℚ :=
  let js := bucketJs data.length targetLength i
  if js.length = 0 then
    let bucketSize : ℚ := (data.length : ℚ) / (targetLength : ℚ)
    data.getD (min (Int.floor ((i : ℚ) * bucketSize + 1/2)).toNat
      (data.length - 1)) 0
  else
    js.foldl (fun m j => if data.getD j 0 > m then data.getD j 0 else m) 0

/-- One output value of the upsampling branch of `resampleData`. -/
def upsampleAt (data : List ℚ) (targetLength i : ℕ) : ℚ :=
  let ratio : ℚ := ((data.length : ℚ) - 1) / ((targetLength : ℚ) - 1)
  let index : ℚ := (i : ℚ) * ratio
  let lower : ℤ := Int.floor index
  let upper : ℤ := Int.ceil index
  let fraction : ℚ := index - (lower : ℚ)
  if (data.length : ℤ) ≤ upper then data.getD (data.length - 1) 0
  else if lower = upper then data.getD lower.toNat 0
  else data.getD lower.toNat 0 * (1 - fraction) +
    data.getD upper.toNat 0 * fraction

/-- `resampleData(data, targetLength)` from `src/js/utils.js`. -/
def resampleData (data : List ℚ) (targetLength : ℕ) : List ℚ :=
  if data.length = targetLength then data
  else if data.length = 0 ∨ targetLength = 0 then []
  else if data.length < targetLength then
    (List.range targetLength).map (upsampleAt data targetLength)
  else
    (List.range targetLength).map (downsampleAt data targetLength)

example : resampleData [0, 1, 0, 1] 2 = [1, 1] := by decide
example : resampleData [0, 1] 4 = [0, 1/3, 2/3, 1] := by decide

/-- **C2.** Resampler worked examples: `resampleData([0,1,0,1], 2)` returns
`[1,1]` (bucketed max-pooling) and `resampleData([0,1], 4)` returns
`[0, 1/3, 2/3, 1]` (linear interpolation). -/
theorem resampleData_worked_examples :
    resampleData [0, 1, 0, 1] 2 = [1, 1] ∧
    resampleData [0, 1] 4 = [0, 1/3, 2/3, 1] := by
  constructor <;> decide

theorem getD_mem_of_lt {l : List ℚ} {j : ℕ} (h : j < l.length) :
    l.getD j 0 ∈ l := by
  rw [List.getD_eq_getElem l 0 h]
  exact List.getElem_mem h

/-- Each downsampling bucket visits at least one index, namely
`start = ⌊i * bucketSize⌋`. -/
theorem bucketJs_ne_nil {data : List ℚ} {targetLength i : ℕ}
    (hT : 0 < targetLength) (hlt : targetLength < data.length)
    (hi : i < targetLength) :
    bucketJs data.length targetLength i ≠ [] := by
  set L := data.length with hL
  have hLpos : 0 < L := lt_trans hT hlt
  set bs : ℚ := (L : ℚ) / (targetLength : ℚ) with hbs
  have hbspos : 0 < bs := by
    apply div_pos
    · exact_mod_cast hLpos
    · exact_mod_cast hT
  have hstart_nonneg : (0 : ℚ) ≤ (i : ℚ) * bs :=
    mul_nonneg (by positivity) (le_of_lt hbspos)
  have hfl_nonneg : (0 : ℤ) ≤ Int.floor ((i : ℚ) * bs) :=
    Int.le_floor.mpr (by exact_mod_cast hstart_nonneg)
  have hmono : Int.floor ((i : ℚ) * bs) ≤ Int.floor (((i : ℚ) + 1) * bs) := by
    apply Int.floor_le_floor
    have : (i : ℚ) ≤ (i : ℚ) + 1 := by linarith
    exact mul_le_mul_of_nonneg_right this (le_of_lt hbspos)
  have hstart_lt : Int.floor ((i : ℚ) * bs) < (L : ℤ) := by
    have h1 : (i : ℚ) * bs < (L : ℚ) := by
      have hiT : (i : ℚ) < (targetLength : ℚ) := by exact_mod_cast hi
      have h2 : (i : ℚ) * bs < (targetLength : ℚ) * bs :=
        mul_lt_mul_of_pos_right hiT hbspos
      have h3 : (targetLength : ℚ) * bs = (L : ℚ) := by
        rw [hbs]
        field_simp
      linarith
    exact_mod_cast lt_of_le_of_lt (Int.floor_le _) h1
  set start := (Int.floor ((i : ℚ) * bs)).toNat with hstart
  set stop := (Int.floor (((i : ℚ) + 1) * bs)).toNat with hstop
  have hstart_lt_L : start < L := by omega
  have hstart_le_stop : start ≤ stop := by omega
  have hmem : start ∈ bucketJs data.length targetLength i := by
    rw [bucketJs]
    simp only [← hL, ← hbs, ← hstart, ← hstop]
    apply List.mem_filter.mpr
    constructor
    · apply List.mem_range'_1.mpr
      omega
    · simpa using hstart_lt_L
  exact List.ne_nil_of_mem hmem

/-- **C10.** In the downsampling branch, for `0 < targetLength <
data.length`, every bucket's scan visits at least one element, so the
`count === 0` nearest-neighbour fallback branch is unreachable and each
output value is the bucketed running maximum. -/
theorem downsample_bucket_nonempty {data : List ℚ} {targetLength i : ℕ}
    (hT : 0 < targetLength) (hlt : targetLength < data.length)
    (hi : i < targetLength) :
    bucketJs data.length targetLength i ≠ [] ∧
    downsampleAt data targetLength i =
      (bucketJs data.length targetLength i).foldl
        (fun m j => if data.getD j 0 > m then data.getD j 0 else m) 0 := by
  have h := bucketJs_ne_nil hT hlt hi
  refine ⟨h, ?_⟩
  rw [downsampleAt]
  simp only [List.length_eq_zero]
  rw [if_neg h]

/-- **C10 witness.** The bucket scans of `resampleData([0,1,0,1], 2)` are
non-empty. -/
theorem downsample_bucket_nonempty_witness :
    bucketJs (List.length [(0 : ℚ), 1, 0, 1]) 2 0 ≠ [] ∧
    downsampleAt [(0 : ℚ), 1, 0, 1] 2 0 =
      (bucketJs (List.length [(0 : ℚ), 1, 0, 1]) 2 0).foldl
        (fun m j => if [(0 : ℚ), 1, 0, 1].getD j 0 > m
          then [(0 : ℚ), 1, 0, 1].getD j 0 else m) 0 :=
  downsample_bucket_nonempty (by decide) (by decide) (by decide)

theorem foldl_bucketMax_le {data : List ℚ} {M : ℚ} (js : List ℕ) (a : ℚ)
    (ha : a ≤ M) (hj : ∀ j ∈ js, data.getD j 0 ≤ M) :
    js.foldl (fun m j => if data.getD j 0 > m then data.getD j 0 else m) a
      ≤ M := by
  induction js generalizing a with
  | nil => simpa using ha
  | cons j t ih =>
    simp only [List.foldl_cons]
    refine ih _ ?_ (fun x hx => hj x (by simp [hx]))
    by_cases h : data.getD j 0 > a
    · rw [if_pos h]
      exact hj j (by simp)
    · rw [if_neg h]
      exact ha

/-- Members of a bucket index list are in-bounds positions of `data`. -/
theorem bucketJs_mem_lt {data : List ℚ} {targetLength i j : ℕ}
    (hj : j ∈ bucketJs data.length targetLength i) : j < data.length := by
  rw [bucketJs] at hj
  have := (List.mem_filter.mp hj).2
  simpa using this

/-- **C6 counterexample.** On the all-negative input `[-1, -2]` the
downsampling branch produces `[0]`, which exceeds the input's global
maximum `-1`: the claim fails for general numeric input. -/
theorem downsample_exceeds_max_on_negative_input :
    resampleData [-1, -2] 1 = [0] ∧ jsMax [-1, -2] = -1 ∧
    ¬ ((0 : ℚ) ≤ -1) := by
  refine ⟨by decide, by decide, by decide⟩

/-- **C6 (amended: non-negative input).** For every non-empty list of
non-negative values and every `0 < targetLength < data.length`, no value
produced by the downsampling branch of `resampleData` exceeds the global
maximum of the input. -/
theorem downsample_le_max {data : List ℚ} {targetLength : ℕ}
    (hne : data ≠ []) (hpos : ∀ x ∈ data, 0 ≤ x)
    (hT : 0 < targetLength) (hlt : targetLength < data.length) :
    ∀ v ∈ resampleData data targetLength, v ≤ jsMax data := by
  intro v hv
  have hmax_nonneg : 0 ≤ jsMax data := hpos _ (jsMax_mem hne)
  have hbranch : resampleData data targetLength =
      (List.range targetLength).map (downsampleAt data targetLength) := by
    rw [resampleData, if_neg (by omega), if_neg (by omega), if_neg (by omega)]
  rw [hbranch] at hv
  obtain ⟨i, _, rfl⟩ := List.mem_map.mp hv
  rw [downsampleAt]
  split
  · apply le_jsMax
    apply getD_mem_of_lt
    omega
  · exact foldl_bucketMax_le _ _ hmax_nonneg
      (fun j hj => le_jsMax (getD_mem_of_lt (bucketJs_mem_lt hj)))

/-- **C6 witness.** Concrete instance: the first value produced by
downsampling `[1/2, 1, 0, 1/4]` to length `2` does not exceed the
input's maximum. -/
theorem downsample_le_max_witness :
    (1 : ℚ) ≤ jsMax [1/2, 1, 0, 1/4] :=
  @downsample_le_max [1/2, 1, 0, 1/4] 2 (by decide) (by decide) (by decide)
    (by decide) 1 (by decide)

/-! ## The peak extractor (`extractPeaks`, `normalizePeaks`,
`src/js/audio.js`)

A decoded audio buffer is modelled by its frame count, sample rate and
channel list, each channel an index function. -/

structure AudioBuffer where
  length : ℕ
  sampleRate : ℚ
  channels : List (ℕ → ℚ)

/-- The index sequence of the strided window scan
`for (let j = start; j < end; j += sampleStep)`. -/
def windowIdx (start stop step : ℕ) : List ℕ :=
  List.range' start ((stop - start + step - 1) / step) step

/-- One window's peak: the loop tracks a running `min` and `max`, both
initialized to `0`, over the strided scan; the peak is
`Math.max(Math.abs(max), Math.abs(min))`. -/
def windowPeak (chan : ℕ → ℚ) (start stop step : ℕ) : ℚ :=
  let vals := (windowIdx start stop step).map chan
  max |vals.foldl max 0| |vals.foldl min 0|

/-- Per-channel peak extraction: `sampleSize = buffer.length / samples`
(float division), `sampleStep = ~~(sampleSize / 10) || 1`, window `i`
scans `[~~(i * sampleSize), ~~(start + sampleSize))`. -/
def channelPeaks (chan : ℕ → ℚ) (len samples : ℕ) : List ℚ :=
  let sampleSize : ℚ := (len : ℚ) / (samples : ℚ)
  let s0 := (Int.floor (sampleSize / 10)).toNat
  let sampleStep := if s0 = 0 then 1 else s0
  (List.range samples).map (fun (i : ℕ) =>
    let start := (Int.floor ((i : ℚ) * sampleSize)).toNat
    let stop := (Int.floor ((start : ℚ) + sampleSize)).toNat
    windowPeak chan start stop sampleStep)

/-- Channel merging: `if (c === 0 || peak > peaks[i]) peaks[i] = peak`,
i.e. channel `0` initializes and later channels overwrite pointwise when
strictly greater. -/
def mergePeaksList (len samples : ℕ) : List (ℕ → ℚ) → List ℚ
  | [] => []
  | c0 :: rest =>
    rest.foldl
      (fun acc c => List.zipWith (fun old p => if p > old then p else old)
        acc (channelPeaks c len samples))
      (channelPeaks c0 len samples)

/-- The merged (pre-normalization) peaks of a buffer. -/
def mergedPeaks (buffer : AudioBuffer) (samples : ℕ) : List ℚ :=
  mergePeaksList buffer.length samples buffer.channels

/-- `extractPeaks(buffer, samples)`: merged per-window peaks, divided by
their global maximum when it is positive.  (`Math.max()` of an empty
spread is `-Infinity` in JS, modelled as `0` by `jsMax`; both fail the
`maxPeak > 0` guard, so the observable result agrees.) -/
def extractPeaks (buffer : AudioBuffer) (samples : ℕ) : List ℚ :=
  let peaks := mergedPeaks buffer samples
  let maxPeak := jsMax peaks
  if maxPeak > 0 then peaks.map (fun p => p / maxPeak) else peaks

/-- `normalizePeaks(peaks, targetMax = 0.95)`: boost a quiet envelope so
its maximum reaches `targetMax`; silent or already-loud envelopes are
returned unchanged. -/
def normalizePeaks (peaks : List ℚ) (targetMax : ℚ) : List ℚ :=
  let maxPeak := jsMax peaks
  if maxPeak = 0 ∨ maxPeak > targetMax then peaks
  else peaks.map (fun p => p * (targetMax / maxPeak))

theorem mem_zipWith {f : ℚ → ℚ → ℚ} :
    ∀ {l₁ l₂ : List ℚ} {v : ℚ}, v ∈ List.zipWith f l₁ l₂ →
      ∃ a ∈ l₁, ∃ b ∈ l₂, v = f a b := by
  intro l₁
  induction l₁ with
  | nil => intro l₂ v hv; simp at hv
  | cons a t ih =>
    intro l₂ v hv
    cases l₂ with
    | nil => simp at hv
    | cons b t₂ =>
      rcases List.mem_cons.mp hv with rfl | hv
      · exact ⟨a, by simp, b, by simp, rfl⟩
      · obtain ⟨x, hx, y, hy, rfl⟩ := ih hv
        exact ⟨x, by simp [hx], y, by simp [hy], rfl⟩

theorem windowPeak_nonneg (chan : ℕ → ℚ) (start stop step : ℕ) :
    0 ≤ windowPeak chan start stop step :=
  le_trans (abs_nonneg _) (le_max_left _ _)

theorem channelPeaks_length (chan : ℕ → ℚ) (len samples : ℕ) :
    (channelPeaks chan len samples).length = samples := by
  simp only [channelPeaks, List.length_map, List.length_range]

theorem channelPeaks_mem_nonneg {chan : ℕ → ℚ} {len samples : ℕ} {v : ℚ}
    (hv : v ∈ channelPeaks chan len samples) : 0 ≤ v := by
  rw [channelPeaks] at hv
  simp only [List.mem_map] at hv
  obtain ⟨i, _, rfl⟩ := hv
  exact windowPeak_nonneg _ _ _ _

theorem mergeFoldl_invariant {len samples : ℕ} (P : ℚ → Prop)
    (hmax : ∀ a b, P a → P b → P (if b > a then b else a)) :
    ∀ (rest : List (ℕ → ℚ)),
      (∀ c ∈ rest, ∀ v ∈ channelPeaks c len samples, P v) →
      ∀ (acc : List ℚ), (∀ v ∈ acc, P v) → acc.length = samples →
      (∀ v ∈ rest.foldl
        (fun acc c => List.zipWith (fun old p => if p > old then p else old)
          acc (channelPeaks c len samples)) acc, P v) ∧
      (rest.foldl
        (fun acc c => List.zipWith (fun old p => if p > old then p else old)
          acc (channelPeaks c len samples)) acc).length = samples := by
  intro rest
  induction rest with
  | nil => intro _ acc hacc hlen; exact ⟨hacc, hlen⟩
  | cons c rest ih =>
    intro hP acc hacc hlen
    simp only [List.foldl_cons]
    apply ih (fun c' hc' => hP c' (by simp [hc']))
    · intro v hv
      obtain ⟨a, ha, b, hb, rfl⟩ := mem_zipWith hv
      exact hmax a b (hacc a ha) (hP c (by simp) b hb)
    · rw [List.length_zipWith, hlen, channelPeaks_length]
      exact min_self samples

theorem mergePeaksList_invariant {len samples : ℕ} (P : ℚ → Prop)
    (hmax : ∀ a b, P a → P b → P (if b > a then b else a))
    {channels : List (ℕ → ℚ)}
    (hP : ∀ c ∈ channels, ∀ v ∈ channelPeaks c len samples, P v)
    (hc : channels ≠ []) :
    (∀ v ∈ mergePeaksList len samples channels, P v) ∧
    (mergePeaksList len samples channels).length = samples := by
  cases channels with
  | nil => exact absurd rfl hc
  | cons c0 rest =>
    exact mergeFoldl_invariant P hmax rest
      (fun c' hc' => hP c' (by simp [hc'])) _
      (fun v hv => hP c0 (by simp) v hv) (channelPeaks_length _ _ _)

theorem mergedPeaks_length {buffer : AudioBuffer} {samples : ℕ}
    (hc : buffer.channels ≠ []) :
    (mergedPeaks buffer samples).length = samples :=
  (mergePeaksList_invariant (fun _ => True) (fun _ _ _ _ => trivial)
    (fun _ _ _ _ => trivial) hc).2

theorem mergedPeaks_nonneg {buffer : AudioBuffer} {samples : ℕ}
    (hc : buffer.channels ≠ []) :
    ∀ v ∈ mergedPeaks buffer samples, 0 ≤ v :=
  (mergePeaksList_invariant (fun v => 0 ≤ v)
    (fun a b ha hb => by split <;> assumption)
    (fun _ _ v hv => channelPeaks_mem_nonneg hv) hc).1

theorem jsMax_eq_of {l : List ℚ} {c : ℚ} (hc : c ∈ l)
    (h : ∀ x ∈ l, x ≤ c) : jsMax l = c :=
  le_antisymm (h _ (jsMax_mem (List.ne_nil_of_mem hc))) (le_jsMax hc)

theorem foldl_max_zero {l : List ℚ} (h : ∀ x ∈ l, x = 0) :
    l.foldl max 0 = 0 := by
  induction l with
  | nil => rfl
  | cons x t ih =>
    have hx : x = 0 := h x (by simp)
    simp only [List.foldl_cons, hx, max_self]
    exact ih (fun y hy => h y (by simp [hy]))

theorem foldl_min_zero {l : List ℚ} (h : ∀ x ∈ l, x = 0) :
    l.foldl min 0 = 0 := by
  induction l with
  | nil => rfl
  | cons x t ih =>
    have hx : x = 0 := h x (by simp)
    simp only [List.foldl_cons, hx, min_self]
    exact ih (fun y hy => h y (by simp [hy]))

theorem windowPeak_zero {chan : ℕ → ℚ} (h : ∀ j, chan j = 0)
    (start stop step : ℕ) : windowPeak chan start stop step = 0 := by
  rw [windowPeak]
  have hall : ∀ x ∈ (windowIdx start stop step).map chan, x = 0 := by
    intro x hx
    obtain ⟨j, _, rfl⟩ := List.mem_map.mp hx
    exact h j
  simp only [foldl_max_zero hall, foldl_min_zero hall, abs_zero, max_self]

theorem channelPeaks_zero {chan : ℕ → ℚ} (h : ∀ j, chan j = 0)
    {len samples : ℕ} : ∀ v ∈ channelPeaks chan len samples, v = 0 := by
  intro v hv
  rw [channelPeaks] at hv
  simp only [List.mem_map] at hv
  obtain ⟨i, _, rfl⟩ := hv
  exact windowPeak_zero h _ _ _

/-- **C5 (amended).** Peak-extractor postconditions, for a buffer with at
least one channel and `samples ≥ 1`: output length is `samples`; all
values lie in `[0,1]`; all-zero channels yield an all-zero envelope; the
envelope attains `1` exactly when the merged pre-normalization peaks are
not identically zero — i.e. when the *strided scan* sees a nonzero sample
(a non-silent buffer whose nonzero samples all fall between stride points
yields an all-zero envelope, refuting the original claim); and the
follow-up `normalizePeaks(..., 0.95)` boost never changes the result. -/
theorem extractPeaks_postconditions (buffer : AudioBuffer) (samples : ℕ)
    (hs : 1 ≤ samples) (hc : buffer.channels ≠ []) :
    (extractPeaks buffer samples).length = samples ∧
    (∀ v ∈ extractPeaks buffer samples, 0 ≤ v ∧ v ≤ 1) ∧
    ((∀ c ∈ buffer.channels, ∀ j, c j = 0) →
      ∀ v ∈ extractPeaks buffer samples, v = 0) ∧
    (0 < jsMax (mergedPeaks buffer samples) →
      (1 : ℚ) ∈ extractPeaks buffer samples) ∧
    normalizePeaks (extractPeaks buffer samples) (19/20) =
      extractPeaks buffer samples := by
  have hlen : (mergedPeaks buffer samples).length = samples :=
    mergedPeaks_length hc
  have hnn : ∀ v ∈ mergedPeaks buffer samples, 0 ≤ v := mergedPeaks_nonneg hc
  have hne : mergedPeaks buffer samples ≠ [] :=
    List.length_pos.mp (by omega)
  have hMnn : 0 ≤ jsMax (mergedPeaks buffer samples) :=
    hnn _ (jsMax_mem hne)
  by_cases hM : jsMax (mergedPeaks buffer samples) > 0
  · have hext : extractPeaks buffer samples =
        (mergedPeaks buffer samples).map
          (fun p => p / jsMax (mergedPeaks buffer samples)) := by
      rw [extractPeaks, if_pos hM]
    have hone : (1 : ℚ) ∈ extractPeaks buffer samples := by
      rw [hext]
      refine List.mem_map.mpr
        ⟨jsMax (mergedPeaks buffer samples), jsMax_mem hne, ?_⟩
      exact div_self (ne_of_gt hM)
    have hbound : ∀ v ∈ extractPeaks buffer samples, 0 ≤ v ∧ v ≤ 1 := by
      rw [hext]
      intro v hv
      obtain ⟨p, hp, rfl⟩ := List.mem_map.mp hv
      exact ⟨div_nonneg (hnn p hp) (le_of_lt hM),
        (div_le_one hM).mpr (le_jsMax hp)⟩
    refine ⟨?_, hbound, ?_, fun _ => hone, ?_⟩
    · rw [hext, List.length_map, hlen]
    · intro hzero
      exfalso
      have hall : ∀ v ∈ mergedPeaks buffer samples, v = 0 :=
        (mergePeaksList_invariant (fun v => v = 0)
          (fun a b ha hb => by split <;> assumption)
          (fun c hch v hv => channelPeaks_zero (hzero c hch) v hv) hc).1
      have h0 := hall _ (jsMax_mem hne)
      rw [h0] at hM
      exact lt_irrefl 0 hM
    · have hmax1 : jsMax (extractPeaks buffer samples) = 1 :=
        jsMax_eq_of hone (fun x hx => (hbound x hx).2)
      rw [normalizePeaks, hmax1, if_pos (Or.inr (by norm_num))]
  · have hext : extractPeaks buffer samples = mergedPeaks buffer samples := by
      rw [extractPeaks, if_neg hM]
    have hM0 : jsMax (mergedPeaks buffer samples) = 0 := le_antisymm
      (not_lt.mp hM) hMnn
    have hzero : ∀ v ∈ extractPeaks buffer samples, v = 0 := by
      rw [hext]
      intro v hv
      have h1 := hnn v hv
      have h2 := le_jsMax hv
      rw [hM0] at h2
      linarith
    refine ⟨by rw [hext, hlen], ?_, fun _ => hzero, ?_, ?_⟩
    · intro v hv
      rw [hzero v hv]
      norm_num
    · intro hpos
      rw [hM0] at hpos
      exact absurd hpos (by norm_num)
    · rw [normalizePeaks, hext, hM0, if_pos (Or.inl rfl)]

/-- A 20-frame mono buffer whose only nonzero sample sits at frame 1:
with `samples = 1` the strided scan (stride `~~(20/10) = 2`) visits only
even frames and never sees it. -/
def strideMissBuffer : AudioBuffer :=
  ⟨20, 44100, [fun j => if j = 1 then 1/2 else 0]⟩

/-- **C5 counterexample.** A non-silent buffer (frame 1 holds `1/2`,
well below the `0.95` boost ceiling) whose extracted envelope is all
zero: no output value equals `1.0`, refuting the original claim's part 4.
-/
theorem extractPeaks_nonsilent_no_one :
    (strideMissBuffer.channels.getD 0 (fun _ => 0)) 1 = 1/2 ∧
    extractPeaks strideMissBuffer 1 = [0] ∧
    (1 : ℚ) ∉ extractPeaks strideMissBuffer 1 := by
  refine ⟨by decide, by decide, by decide⟩

/-- A small healthy stereo test buffer. -/
def stereoBuffer : AudioBuffer :=
  ⟨4, 44100, [fun _ => 1/2, fun j => if j = 0 then 1/4 else 0]⟩

/-- **C5 witness.** The postconditions instantiated on `stereoBuffer`
with `samples = 2`. -/
theorem extractPeaks_postconditions_witness :
    (extractPeaks stereoBuffer 2).length = 2 ∧
    (∀ v ∈ extractPeaks stereoBuffer 2, 0 ≤ v ∧ v ≤ 1) ∧
    ((∀ c ∈ stereoBuffer.channels, ∀ j, c j = 0) →
      ∀ v ∈ extractPeaks stereoBuffer 2, v = 0) ∧
    (0 < jsMax (mergedPeaks stereoBuffer 2) →
      (1 : ℚ) ∈ extractPeaks stereoBuffer 2) ∧
    normalizePeaks (extractPeaks stereoBuffer 2) (19/20) =
      extractPeaks stereoBuffer 2 :=
  extractPeaks_postconditions stereoBuffer 2 (by decide)
    (List.cons_ne_nil _ _)

/-- **C9 (amended).** `extractPeaks` with `samples = 0` does *not* fail
fast: it returns the empty envelope as a normal result, for every buffer.
(In the source, `sampleSize` becomes `Infinity`, the per-window loop body
never runs, and `Math.max(...[]) = -Infinity` fails the `> 0` guard, so
the untouched empty `peaks` array is returned; nothing throws.) -/
theorem extractPeaks_samples_zero (buffer : AudioBuffer) :
    extractPeaks buffer 0 = [] := by
  have hm : mergedPeaks buffer 0 = [] := by
    rcases hch : buffer.channels with _ | ⟨c0, rest⟩
    · rw [mergedPeaks, hch]
      rfl
    · rw [mergedPeaks, hch]
      have h := (@mergeFoldl_invariant buffer.length 0 (fun _ => True)
        (fun _ _ _ _ => trivial) rest (fun _ _ _ _ => trivial)
        (channelPeaks c0 buffer.length 0)
        (fun _ _ => trivial) (channelPeaks_length _ _ _)).2
      rw [mergePeaksList]
      exact List.length_eq_zero.mp h
  rw [extractPeaks, hm]
  norm_num [jsMax]

/-- **C9 counterexample.** At a concrete well-formed buffer,
`extractPeaks(buffer, 0)` evaluates to the ordinary value `[]` — no error
is raised, contradicting the claimed fail-fast behaviour. -/
theorem extractPeaks_samples_zero_returns_normally :
    extractPeaks ⟨20, 44100, [fun _ => 1/2]⟩ 0 = [] := by
  decide

/-! ## Onset detection and BPM estimation (`src/js/bpm.js`)

`detectOnsets` slides a 2048-frame window with hop 1024, flags energy
jumps over an exponentially smoothed baseline, and enforces a `0.15 s`
refractory gap.  `detectBPM` buckets the inter-onset tempos to multiples
of 3 BPM, picks the most frequent bucket, applies octave correction, and
subtracts a 1 BPM calibration offset.

The tempo groups live in a plain JS object keyed by the integer bucket;
`Object.entries` enumerates such integer-like keys in *ascending numeric
order* (ECMAScript OrdinaryOwnPropertyKeys), not in insertion order —
modelled by sorting the insertion-ordered association list by key. -/

/-- Sum of squares over one 2048-frame window. -/
def windowEnergy (chan : ℕ → ℚ) (i : ℕ) : ℚ :=
  (List.range 2048).foldl (fun e k => e + chan (i + k) * chan (i + k)) 0

/-- One iteration of the onset-detection loop: state is
`(previousEnergy, onsets)`. -/
def onsetStep (chan : ℕ → ℚ) (sampleRate : ℚ) (st : ℚ × List ℕ)
    (i : ℕ) : ℚ × List ℕ :=
  let previousEnergy := st.1
  let onsets := st.2
  let energy := windowEnergy chan i / 2048
  let energyDiff := energy - previousEnergy
  let threshold := previousEnergy * 1.8 + 0.01
  let onsets' :=
    if energyDiff > threshold ∧ energy > 0.01 then
      let lastOnset := onsets.getLast?.getD 0
      if (i : ℚ) - (lastOnset : ℚ) > sampleRate * 0.15 then
        onsets ++ [i]
      else onsets
    else onsets
  (energy * 0.8 + previousEnergy * 0.2, onsets')

/-- `detectOnsets(channelData, sampleRate)`: the loop
`for (i = 0; i < channelData.length - windowSize; i += hopSize)` visits
exactly the starts `0, 1024, …` below `len - 2048` (owing to JS negative
arithmetic, no window runs when `len ≤ 2048`, matching truncated `ℕ`
subtraction). -/
def detectOnsets (chan : ℕ → ℚ) (len : ℕ) (sampleRate : ℚ) : List ℕ :=
  ((List.range' 0 ((len - 2048 + 1023) / 1024) 1024).foldl
    (onsetStep chan sampleRate) (0, [])).2

/-- `Math.round`: round half toward `+∞`. -/
def jsRound (x : ℚ) : ℤ := Int.floor (x + 1/2)

/-- `tempoGroups[bucket] = (tempoGroups[bucket] || 0) + 1` on an
insertion-ordered association list. -/
def bumpKey : List (ℤ × ℕ) → ℤ → List (ℤ × ℕ)
  | [], k => [(k, 1)]
  | (k', c) :: rest, k =>
    if k' = k then (k', c + 1) :: rest else (k', c) :: bumpKey rest k

/-- The tempo-vote table, in insertion order: each interval contributes a
vote to bucket `round((60/interval)/3)*3` when `60 < bucket < 200`. -/
def tempoBuckets (intervals : List ℚ) : List (ℤ × ℕ) :=
  intervals.foldl (fun groups interval =>
    let tempo : ℚ := 60 / interval
    let bucket : ℤ := jsRound (tempo / 3) * 3
    if 60 < bucket ∧ bucket < 200 then bumpKey groups bucket else groups) []

/-- Ordering of tempo-group entries by bucket key. -/
def keyLE (a b : ℤ × ℕ) : Prop := a.1 ≤ b.1

instance : DecidableRel keyLE :=
  fun a b => inferInstanceAs (Decidable (a.1 ≤ b.1))

instance : IsTotal (ℤ × ℕ) keyLE := ⟨fun a b => le_total a.1 b.1⟩

instance : IsTrans (ℤ × ℕ) keyLE := ⟨fun _ _ _ => le_trans⟩

/-- `Object.entries(tempoGroups)`: ascending numeric key order. -/
def entriesAsc (groups : List (ℤ × ℕ)) : List (ℤ × ℕ) :=
  groups.insertionSort keyLE

/-- One step of the winner scan
`if (count > maxCount) { maxCount = count; detectedBPM = parseInt(tempo) }`;
the accumulator is `(detectedBPM, maxCount)`. -/
def pickStep (acc : ℤ × ℕ) (e : ℤ × ℕ) : ℤ × ℕ :=
  if e.2 > acc.2 then (e.1, e.2) else acc

/-- The winner scan over the enumerated entries, starting from the
defaults `detectedBPM = 120`, `maxCount = 0`. -/
def pickBucket (entries : List (ℤ × ℕ)) : ℤ × ℕ :=
  entries.foldl pickStep (120, 0)

/-- `tempoGroups[k]` truthiness: a stored vote count (all counts are
`≥ 1`, so presence coincides with truthiness). -/
def lookupCount (groups : List (ℤ × ℕ)) (k : ℤ) : Option ℕ :=
  (groups.find? (fun e => e.1 = k)).map (fun e => e.2)

/-- Octave-error correction of the winning bucket. -/
def octaveCorrect (groups : List (ℤ × ℕ)) (b : ℤ) : ℤ :=
  if b < 70 ∧ (lookupCount groups (b * 2)).isSome then b * 2
  else if b > 160 ∧ (lookupCount groups (jsRound ((b : ℚ) / 2))).isSome then
    jsRound ((b : ℚ) / 2)
  else b

/-- Inter-onset intervals in seconds. -/
def intervalsOf (onsets : List ℕ) (sampleRate : ℚ) : List ℚ :=
  (onsets.zip onsets.tail).map (fun p => ((p.2 : ℚ) - (p.1 : ℚ)) / sampleRate)

/-- `detectBPM(buffer)`, on the buffer's first channel and sample rate.
The early-exit for fewer than 2 onsets returns the bare default `120`
(the `- 1` calibration is applied only on the full path). -/
def detectBPM (chan : ℕ → ℚ) (len : ℕ) (sampleRate : ℚ) : ℤ :=
  let onsets := detectOnsets chan len sampleRate
  if onsets.length < 2 then 120
  else
    let groups := tempoBuckets (intervalsOf onsets sampleRate)
    let detected := (pickBucket (entriesAsc groups)).1
    octaveCorrect groups detected - 1

/-- **C3 (amended).** Whenever onset detection finds fewer than 2 onsets,
`detectBPM` returns exactly `120` — the default *without* the `-1`
calibration offset, not the claimed `119`. -/
theorem detectBPM_default {chan : ℕ → ℚ} {len : ℕ} {sampleRate : ℚ}
    (h : (detectOnsets chan len sampleRate).length < 2) :
    detectBPM chan len sampleRate = 120 := by
  rw [detectBPM, if_pos h]

/-- **C3 counterexample.** An empty channel yields no onsets, and
`detectBPM` evaluates to `120`, not `119`. -/
theorem detectBPM_default_is_120_not_119 :
    detectOnsets (fun _ => 0) 0 44100 = [] ∧
    detectBPM (fun _ => 0) 0 44100 = 120 ∧ (120 : ℤ) ≠ 119 := by
  refine ⟨by decide, by decide, by decide⟩

/-- **C3 witness.** The amended statement applied at a 100-frame silent
channel. -/
theorem detectBPM_default_witness :
    detectBPM (fun _ => 0) 100 48000 = 120 :=
  detectBPM_default (by decide)

theorem pickFold_le (E : List (ℤ × ℕ)) (acc : ℤ × ℕ) :
    acc.2 ≤ (E.foldl pickStep acc).2 ∧
    ∀ e ∈ E, e.2 ≤ (E.foldl pickStep acc).2 := by
  induction E generalizing acc with
  | nil => exact ⟨le_refl _, by simp⟩
  | cons y t ih =>
    simp only [List.foldl_cons]
    obtain ⟨h1, h2⟩ := ih (pickStep acc y)
    have hacc : acc.2 ≤ (pickStep acc y).2 := by
      by_cases hgt : y.2 > acc.2
      · rw [pickStep, if_pos hgt]
        exact le_of_lt hgt
      · rw [pickStep, if_neg hgt]
    have hy : y.2 ≤ (pickStep acc y).2 := by
      by_cases hgt : y.2 > acc.2
      · rw [pickStep, if_pos hgt]
      · rw [pickStep, if_neg hgt]
        exact not_lt.mp hgt
    refine ⟨le_trans hacc h1, ?_⟩
    intro e he
    rcases List.mem_cons.mp he with rfl | he
    · exact le_trans hy h1
    · exact h2 e he

theorem pickFold_mem (E : List (ℤ × ℕ)) (acc : ℤ × ℕ) :
    E.foldl pickStep acc = acc ∨ E.foldl pickStep acc ∈ E := by
  induction E generalizing acc with
  | nil => exact Or.inl rfl
  | cons y t ih =>
    simp only [List.foldl_cons]
    rcases ih (pickStep acc y) with h | h
    · rw [h, pickStep]
      split
      · exact Or.inr (by simp)
      · exact Or.inl rfl
    · exact Or.inr (by simp [h])

theorem pickFold_count_eq (E : List (ℤ × ℕ)) :
    ∀ acc : ℤ × ℕ, (E.foldl pickStep acc).2 = acc.2 →
    E.foldl pickStep acc = acc := by
  induction E with
  | nil => intro acc _; rfl
  | cons y t ih =>
    intro acc h
    simp only [List.foldl_cons] at h ⊢
    by_cases hc : y.2 > acc.2
    · exfalso
      have hle := (pickFold_le t (pickStep acc y)).1
      rw [pickStep, if_pos hc] at hle h
      simp only at hle
      omega
    · rw [pickStep, if_neg hc] at h ⊢
      exact ih acc h

theorem pickFold_tie (E : List (ℤ × ℕ)) :
    ∀ acc : ℤ × ℕ, List.Sorted keyLE E →
    (∀ e ∈ E, e.2 = acc.2 → acc.1 ≤ e.1) →
    ∀ e ∈ E, e.2 = (E.foldl pickStep acc).2 →
    (E.foldl pickStep acc).1 ≤ e.1 := by
  induction E with
  | nil => intro acc _ _ e he; cases he
  | cons y t ih =>
    intro acc hs hacc e he hcnt
    simp only [List.foldl_cons] at hcnt ⊢
    have hyt : ∀ b ∈ t, keyLE y b := (List.sorted_cons.mp hs).1
    have hst : List.Sorted keyLE t := (List.sorted_cons.mp hs).2
    have hacc' : ∀ e' ∈ t, e'.2 = (pickStep acc y).2 →
        (pickStep acc y).1 ≤ e'.1 := by
      intro e' he' heq
      rw [pickStep] at heq ⊢
      by_cases hc : y.2 > acc.2
      · rw [if_pos hc] at heq ⊢
        exact hyt e' he'
      · rw [if_neg hc] at heq ⊢
        exact hacc e' (by simp [he']) heq
    rcases List.mem_cons.mp he with heq | he'
    · rw [heq] at hcnt ⊢
      by_cases hc : y.2 > acc.2
      · have hCeq : (t.foldl pickStep (pickStep acc y)).2 =
            (pickStep acc y).2 := by
          rw [pickStep, if_pos hc]
          rw [pickStep, if_pos hc] at hcnt
          exact hcnt.symm
        rw [pickFold_count_eq t _ hCeq, pickStep, if_pos hc]
      · rw [pickStep, if_neg hc] at hcnt ⊢
        have h1 := (pickFold_le t acc).1
        have hy_le : y.2 ≤ acc.2 := not_lt.mp hc
        have hacc_eq : (t.foldl pickStep acc).2 = acc.2 := by omega
        rw [pickFold_count_eq t acc hacc_eq]
        exact hacc y (by simp) (by omega)
    · exact ih (pickStep acc y) hst hacc' e he' hcnt

theorem bumpKey_counts {groups : List (ℤ × ℕ)} {k : ℤ}
    (h : ∀ e ∈ groups, 1 ≤ e.2) : ∀ e ∈ bumpKey groups k, 1 ≤ e.2 := by
  induction groups with
  | nil =>
    intro e he
    rw [bumpKey] at he
    rcases List.mem_singleton.mp he with rfl
    exact le_refl 1
  | cons g t ih =>
    obtain ⟨k', c⟩ := g
    intro e he
    rw [bumpKey] at he
    split at he
    · rcases List.mem_cons.mp he with rfl | he
      · simp
      · exact h e (by simp [he])
    · rcases List.mem_cons.mp he with rfl | he
      · exact h (k', c) (by simp)
      · exact ih (fun e' he' => h e' (by simp [he'])) e he

theorem tempoBuckets_counts (intervals : List ℚ) :
    ∀ e ∈ tempoBuckets intervals, 1 ≤ e.2 := by
  rw [tempoBuckets]
  have hgen : ∀ (l : List ℚ) (acc : List (ℤ × ℕ)), (∀ e ∈ acc, 1 ≤ e.2) →
      ∀ e ∈ l.foldl (fun groups interval =>
        let tempo : ℚ := 60 / interval
        let bucket : ℤ := jsRound (tempo / 3) * 3
        if 60 < bucket ∧ bucket < 200 then bumpKey groups bucket
        else groups) acc, 1 ≤ e.2 := by
    intro l
    induction l with
    | nil => intro acc h; simpa using h
    | cons x t ih =>
      intro acc h
      simp only [List.foldl_cons]
      apply ih
      split
      · exact bumpKey_counts h
      · exact h
  exact hgen intervals [] (by simp)

/-- **C7 (amended).** With at least 2 onsets and a non-empty vote table,
the winning bucket is a most-voted entry of the table and, among equally
voted entries, the one with the *smallest* bucket value — JS `Object.entries`
enumerates the integer keys in ascending numeric order, so ties keep the
smallest bucket, not the first-seen one — and `detectBPM` returns that
winner octave-corrected and decremented by exactly 1 BPM. -/
theorem detectBPM_tempo_estimation (chan : ℕ → ℚ) (len : ℕ)
    (sampleRate : ℚ)
    (h2 : ¬ (detectOnsets chan len sampleRate).length < 2)
    (hg : tempoBuckets
      (intervalsOf (detectOnsets chan len sampleRate) sampleRate) ≠ []) :
    ((pickBucket (entriesAsc (tempoBuckets
        (intervalsOf (detectOnsets chan len sampleRate) sampleRate)))).1,
     (pickBucket (entriesAsc (tempoBuckets
        (intervalsOf (detectOnsets chan len sampleRate) sampleRate)))).2) ∈
      tempoBuckets
        (intervalsOf (detectOnsets chan len sampleRate) sampleRate) ∧
    (∀ e ∈ tempoBuckets
        (intervalsOf (detectOnsets chan len sampleRate) sampleRate),
      e.2 ≤ (pickBucket (entriesAsc (tempoBuckets
        (intervalsOf (detectOnsets chan len sampleRate) sampleRate)))).2) ∧
    (∀ e ∈ tempoBuckets
        (intervalsOf (detectOnsets chan len sampleRate) sampleRate),
      e.2 = (pickBucket (entriesAsc (tempoBuckets
        (intervalsOf (detectOnsets chan len sampleRate) sampleRate)))).2 →
      (pickBucket (entriesAsc (tempoBuckets
        (intervalsOf (detectOnsets chan len sampleRate) sampleRate)))).1
        ≤ e.1) ∧
    detectBPM chan len sampleRate =
      octaveCorrect
        (tempoBuckets
          (intervalsOf (detectOnsets chan len sampleRate) sampleRate))
        (pickBucket (entriesAsc (tempoBuckets
          (intervalsOf (detectOnsets chan len sampleRate) sampleRate)))).1
        - 1 := by
  set groups := tempoBuckets
    (intervalsOf (detectOnsets chan len sampleRate) sampleRate) with hgdef
  have hperm : List.Perm (entriesAsc groups) groups :=
    List.perm_insertionSort keyLE _
  have hsorted : List.Sorted keyLE (entriesAsc groups) :=
    List.sorted_insertionSort keyLE _
  have hcounts : ∀ e ∈ entriesAsc groups, 1 ≤ e.2 := by
    intro e he
    exact tempoBuckets_counts _ e (hperm.mem_iff.mp he)
  have hEne : entriesAsc groups ≠ [] := by
    intro hnil
    rcases List.exists_mem_of_ne_nil groups hg with ⟨x, hx⟩
    have := hperm.mem_iff.mpr hx
    rw [hnil] at this
    cases this
  have hr_mem : pickBucket (entriesAsc groups) ∈ entriesAsc groups := by
    rw [pickBucket]
    rcases pickFold_mem (entriesAsc groups) (120, 0) with h | h
    · exfalso
      rcases List.exists_mem_of_ne_nil _ hEne with ⟨e0, he0⟩
      have hle := (pickFold_le (entriesAsc groups) (120, 0)).2 e0 he0
      have hc0 := hcounts e0 he0
      rw [h] at hle
      simp only at hle
      omega
    · exact h
  have hr_groups : pickBucket (entriesAsc groups) ∈ groups :=
    hperm.mem_iff.mp hr_mem
  refine ⟨by simpa using hr_groups, ?_, ?_, ?_⟩
  · intro e he
    exact (pickFold_le (entriesAsc groups) (120, 0)).2 e
      (hperm.mem_iff.mpr he)
  · intro e he hcnt
    exact pickFold_tie (entriesAsc groups) (120, 0) hsorted
      (fun e' _ he' => absurd he'.symm (by have := hcounts e' ‹_›; omega))
      e (hperm.mem_iff.mpr he) hcnt
  · rw [detectBPM, if_neg h2]

/-! Concrete evaluation of the onset loop.  The 2048-term energy sums are
evaluated through an additive-fold lemma and indicator sums rather than by
brute-force kernel reduction. -/

theorem foldl_add_eq (g : ℕ → ℚ) (l : List ℕ) (c : ℚ) :
    l.foldl (fun e k => e + g k) c = c + (l.map g).sum := by
  induction l generalizing c with
  | nil => simp
  | cons x t ih =>
    simp only [List.foldl_cons, List.map_cons, List.sum_cons, ih]
    ring

theorem sum_map_congr {l : List ℕ} {f g : ℕ → ℚ}
    (h : ∀ k ∈ l, f k = g k) : (l.map f).sum = (l.map g).sum := by
  rw [List.map_congr_left h]

theorem sum_map_add (l : List ℕ) (f g : ℕ → ℚ) :
    (l.map (fun k => f k + g k)).sum = (l.map f).sum + (l.map g).sum := by
  induction l with
  | nil => simp
  | cons x t ih =>
    simp only [List.map_cons, List.sum_cons, ih]
    ring

theorem sum_map_indicator (n i p : ℕ) (a : ℚ) :
    ((List.range n).map (fun k => if i + k = p then a else 0)).sum =
      if i ≤ p ∧ p < i + n then a else 0 := by
  induction n with
  | zero =>
    rw [List.range_zero]
    simp only [List.map_nil, List.sum_nil]
    rw [if_neg (by omega)]
  | succ m ih =>
    rw [List.range_succ, List.map_append, List.sum_append]
    simp only [List.map_cons, List.map_nil, List.sum_cons, List.sum_nil, ih]
    by_cases hm : i + m = p
    · rw [if_pos hm, if_neg (by omega), if_pos (by omega)]
      ring
    · rw [if_neg hm]
      by_cases hin : i ≤ p ∧ p < i + m
      · rw [if_pos hin, if_pos (by omega)]
        ring
      · rw [if_neg hin, if_neg (by omega)]
        ring

/-- A 6145-frame channel with three energy bursts, engineered so the
detected onsets are `1024, 2048, 4096`: the two inter-onset tempos are
`160` and `80` BPM, landing in buckets `159` and `81` with one vote each —
a tie between two buckets in which the *larger* bucket was seen first. -/
def tieChannel : ℕ → ℚ := fun j =>
  if j = 2048 then 32
  else if j = 3072 then 64
  else if j = 5120 then 128 else 0

theorem tieChannel_sq (i k : ℕ) :
    tieChannel (i + k) * tieChannel (i + k) =
      (if i + k = 2048 then (1024 : ℚ) else 0) +
      ((if i + k = 3072 then 4096 else 0) +
       (if i + k = 5120 then 16384 else 0)) := by
  rw [tieChannel]
  split_ifs with h1 h2 h3 <;> norm_num <;> omega

theorem tieChannel_energy (i : ℕ) :
    windowEnergy tieChannel i =
      (if i ≤ 2048 ∧ 2048 < i + 2048 then (1024 : ℚ) else 0) +
      ((if i ≤ 3072 ∧ 3072 < i + 2048 then 4096 else 0) +
       (if i ≤ 5120 ∧ 5120 < i + 2048 then 16384 else 0)) := by
  rw [windowEnergy, foldl_add_eq, zero_add,
    sum_map_congr (fun k _ => tieChannel_sq i k), sum_map_add, sum_map_add,
    sum_map_indicator, sum_map_indicator, sum_map_indicator]

theorem tieChannel_onsets :
    detectOnsets tieChannel 6145 (8192/3) = [1024, 2048, 4096] := by
  have hr : List.range' 0 ((6145 - 2048 + 1023) / 1024) 1024 =
      [0, 1024, 2048, 3072, 4096] := by decide
  rw [detectOnsets, hr]
  simp only [List.foldl_cons, List.foldl_nil, onsetStep, tieChannel_energy]
  norm_num

/-- The tempo-selection rule exactly as the claim words it: the most
frequent bucket with ties keeping the *first-seen* maximum, i.e. the
winner scan running over the vote table in insertion order, then octave
correction and the `-1` calibration. -/
def claimFirstSeenBPM (chan : ℕ → ℚ) (len : ℕ) (sampleRate : ℚ) : ℤ :=
  let onsets := detectOnsets chan len sampleRate
  let groups := tempoBuckets (intervalsOf onsets sampleRate)
  octaveCorrect groups (pickBucket groups).1 - 1

/-- **C7 counterexample.** On `tieChannel` the onsets are
`[1024, 2048, 4096]` (so at least 2), the vote table is
`[(159, 1), (81, 1)]`, and `detectBPM` returns `80` — the *smaller*
bucket `81` wins the tie and is decremented — whereas the claim's
first-seen rule would return `158`. -/
theorem detectBPM_tie_prefers_smallest_bucket :
    detectOnsets tieChannel 6145 (8192/3) = [1024, 2048, 4096] ∧
    tempoBuckets (intervalsOf [1024, 2048, 4096] (8192/3)) =
      [(159, 1), (81, 1)] ∧
    detectBPM tieChannel 6145 (8192/3) = 80 ∧
    claimFirstSeenBPM tieChannel 6145 (8192/3) = 158 := by
  refine ⟨tieChannel_onsets, by decide, ?_, ?_⟩
  · rw [detectBPM, tieChannel_onsets]
    decide
  · rw [claimFirstSeenBPM, tieChannel_onsets]
    decide

/-- A 4097-frame channel with bursts giving exactly the onsets
`[1024, 2048]` at sample rate `2048`: one interval of `0.5 s`, tempo
`120`, vote table `[(120, 1)]`. -/
def pulseChannel : ℕ → ℚ := fun j =>
  if j = 2048 then 32 else if j = 3072 then 64 else 0

theorem pulseChannel_sq (i k : ℕ) :
    pulseChannel (i + k) * pulseChannel (i + k) =
      (if i + k = 2048 then (1024 : ℚ) else 0) +
      ((if i + k = 3072 then 4096 else 0) + 0) := by
  rw [pulseChannel]
  split_ifs with h1 h2
  · omega
  · norm_num
  · norm_num
  · norm_num

theorem pulseChannel_energy (i : ℕ) :
    windowEnergy pulseChannel i =
      (if i ≤ 2048 ∧ 2048 < i + 2048 then (1024 : ℚ) else 0) +
      ((if i ≤ 3072 ∧ 3072 < i + 2048 then 4096 else 0) + 0) := by
  rw [windowEnergy, foldl_add_eq, zero_add,
    sum_map_congr (fun k _ => pulseChannel_sq i k), sum_map_add,
    sum_map_add, sum_map_indicator, sum_map_indicator]
  norm_num

theorem pulseChannel_onsets :
    detectOnsets pulseChannel 4097 2048 = [1024, 2048] := by
  have hr : List.range' 0 ((4097 - 2048 + 1023) / 1024) 1024 =
      [0, 1024, 2048] := by decide
  rw [detectOnsets, hr]
  simp only [List.foldl_cons, List.foldl_nil, onsetStep, pulseChannel_energy]
  norm_num

/-- **C7 witness.** The amended tempo-estimation statement instantiated
on `pulseChannel`. -/
theorem detectBPM_tempo_estimation_witness :
    ((pickBucket (entriesAsc (tempoBuckets
        (intervalsOf (detectOnsets pulseChannel 4097 2048) 2048)))).1,
     (pickBucket (entriesAsc (tempoBuckets
        (intervalsOf (detectOnsets pulseChannel 4097 2048) 2048)))).2) ∈
      tempoBuckets
        (intervalsOf (detectOnsets pulseChannel 4097 2048) 2048) ∧
    (∀ e ∈ tempoBuckets
        (intervalsOf (detectOnsets pulseChannel 4097 2048) 2048),
      e.2 ≤ (pickBucket (entriesAsc (tempoBuckets
        (intervalsOf (detectOnsets pulseChannel 4097 2048) 2048)))).2) ∧
    (∀ e ∈ tempoBuckets
        (intervalsOf (detectOnsets pulseChannel 4097 2048) 2048),
      e.2 = (pickBucket (entriesAsc (tempoBuckets
        (intervalsOf (detectOnsets pulseChannel 4097 2048) 2048)))).2 →
      (pickBucket (entriesAsc (tempoBuckets
        (intervalsOf (detectOnsets pulseChannel 4097 2048) 2048)))).1
        ≤ e.1) ∧
    detectBPM pulseChannel 4097 2048 =
      octaveCorrect
        (tempoBuckets
          (intervalsOf (detectOnsets pulseChannel 4097 2048) 2048))
        (pickBucket (entriesAsc (tempoBuckets
          (intervalsOf (detectOnsets pulseChannel 4097 2048) 2048)))).1
        - 1 :=
  detectBPM_tempo_estimation pulseChannel 4097 2048
    (by rw [pulseChannel_onsets]; decide)
    (by rw [pulseChannel_onsets]; decide)

/-! ## The waveform renderer (`src/js/drawing.js`)

Drawing is modelled by its emitted command trace on the 2D context.  The
host environment enters as parameters: `dpr` is `window.devicePixelRatio`
and `sinf` is `Math.sin` (only `drawLine` consults it).  An in-loop
`break` on the monotonically growing `x` is a `takeWhile` over the bar
indices. -/

inductive DrawCmd where
  | clearRect (x y w h : ℚ)
  | fillRect (x y w h : ℚ) (color : String)
  | save
  | restore
  | clipRect (x y w h : ℚ)
  | strokeSeg (x1 y1 x2 y2 : ℚ) (color : String) (lineWidth : ℚ)
  | moveTo (x y : ℚ)
  | bezierTo (cp1x cp1y cp2x cp2y x y : ℚ)
  | strokePath (color : String) (lineWidth : ℚ) (glow : Bool)
  | circle (x y r : ℚ) (color : String)
  | roundedRect (left right centerY barHeight : ℚ) (color : String)
      (glow : Bool)
deriving DecidableEq

structure Canvas where
  width : ℚ
  height : ℚ
deriving DecidableEq

structure DrawOpts where
  barWidth : ℚ
  barSpacing : ℚ
  color : String
  progressColor : String
  waveformStyle : String
deriving DecidableEq

/-- `barCount = Math.floor(canvas.width / (barWidth + barSpacing))` with
the already-dpr-scaled bar width and spacing. -/
def fitColumns (width bw bs : ℚ) : ℕ := (Int.floor (width / (bw + bs))).toNat

/-- `drawBars`: bottom-anchored bars, then a progress overlay clipped to
`[0, progressWidth]`. -/
def drawBars (dpr : ℚ) (canvas : Canvas) (peaks : List ℚ) (progress : ℚ)
    (options : DrawOpts) : List DrawCmd :=
  let barWidth := options.barWidth * dpr
  let barSpacing := options.barSpacing * dpr
  let barCount := fitColumns canvas.width barWidth barSpacing
  let resampledPeaks := resampleData peaks barCount
  let height := canvas.height
  let progressWidth := progress * canvas.width
  [DrawCmd.clearRect 0 0 canvas.width canvas.height] ++
  ((List.range resampledPeaks.length).takeWhile
      (fun (i : ℕ) => ¬ ((i : ℚ) * (barWidth + barSpacing) + barWidth >
        canvas.width))).map
    (fun (i : ℕ) =>
      let x := (i : ℚ) * (barWidth + barSpacing)
      let peakHeight := resampledPeaks.getD i 0 * height * 0.9
      DrawCmd.fillRect x (height - peakHeight) barWidth peakHeight
        options.color) ++
  [DrawCmd.save, DrawCmd.clipRect 0 0 progressWidth height] ++
  ((List.range resampledPeaks.length).takeWhile
      (fun (i : ℕ) => ¬ ((i : ℚ) * (barWidth + barSpacing) > progressWidth))).map
    (fun (i : ℕ) =>
      let x := (i : ℚ) * (barWidth + barSpacing)
      let peakHeight := resampledPeaks.getD i 0 * height * 0.9
      DrawCmd.fillRect x (height - peakHeight) barWidth peakHeight
        options.progressColor) ++
  [DrawCmd.restore]

/-- `drawMirror`: symmetric bars around the vertical center, same
two-pass clip technique as `drawBars`. -/
def drawMirror (dpr : ℚ) (canvas : Canvas) (peaks : List ℚ)
    (progress : ℚ) (options : DrawOpts) : List DrawCmd :=
  let barWidth := options.barWidth * dpr
  let barSpacing := options.barSpacing * dpr
  let barCount := fitColumns canvas.width barWidth barSpacing
  let resampledPeaks := resampleData peaks barCount
  let height := canvas.height
  let centerY := height / 2
  let progressWidth := progress * canvas.width
  [DrawCmd.clearRect 0 0 canvas.width canvas.height] ++
  (((List.range resampledPeaks.length).takeWhile
      (fun (i : ℕ) => ¬ ((i : ℚ) * (barWidth + barSpacing) + barWidth >
        canvas.width))).map
    (fun (i : ℕ) =>
      let x := (i : ℚ) * (barWidth + barSpacing)
      let peakHeight := resampledPeaks.getD i 0 * height * 0.45
      [DrawCmd.fillRect x (centerY - peakHeight) barWidth peakHeight
         options.color,
       DrawCmd.fillRect x centerY barWidth peakHeight options.color])).flatten ++
  [DrawCmd.save, DrawCmd.clipRect 0 0 progressWidth height] ++
  (((List.range resampledPeaks.length).takeWhile
      (fun (i : ℕ) => ¬ ((i : ℚ) * (barWidth + barSpacing) > progressWidth))).map
    (fun (i : ℕ) =>
      let x := (i : ℚ) * (barWidth + barSpacing)
      let peakHeight := resampledPeaks.getD i 0 * height * 0.45
      [DrawCmd.fillRect x (centerY - peakHeight) barWidth peakHeight
         options.progressColor,
       DrawCmd.fillRect x centerY barWidth peakHeight
         options.progressColor])).flatten ++
  [DrawCmd.restore]

/-- `drawBlocks`: LED-meter segments stacked outward from center, with
per-column binary progress coloring and `|| 3` / `|| 1` option
defaults. -/
def drawBlocks (dpr : ℚ) (canvas : Canvas) (peaks : List ℚ)
    (progress : ℚ) (options : DrawOpts) : List DrawCmd :=
  let barWidth := (if options.barWidth = 0 then 3 else options.barWidth) * dpr
  let barSpacing :=
    (if options.barSpacing = 0 then 1 else options.barSpacing) * dpr
  let barCount := fitColumns canvas.width barWidth barSpacing
  let resampledPeaks := resampleData peaks barCount
  let height := canvas.height
  let blockSize := 4 * dpr
  let blockGap := 2 * dpr
  let progressWidth := progress * canvas.width
  let centerY := height / 2
  [DrawCmd.clearRect 0 0 canvas.width canvas.height] ++
  (((List.range resampledPeaks.length).takeWhile
      (fun (i : ℕ) => ¬ ((i : ℚ) * (barWidth + barSpacing) + barWidth >
        canvas.width))).map
    (fun (i : ℕ) =>
      let x := (i : ℚ) * (barWidth + barSpacing)
      let peakHeight := resampledPeaks.getD i 0 * height * 0.9
      let blockCount := (Int.floor (peakHeight / (blockSize + blockGap))).toNat
      let color := if x < progressWidth then options.progressColor
        else options.color
      ((List.range blockCount).map (fun (j : ℕ) =>
        let blockOffset := (j : ℚ) * (blockSize + blockGap)
        [DrawCmd.fillRect x (centerY - blockOffset - blockSize) barWidth
           blockSize color] ++
        (if 0 < j then
          [DrawCmd.fillRect x (centerY + blockOffset) barWidth blockSize
             color]
         else []))).flatten)).flatten

/-- `drawDots`: one circle above and one below center per column, with
per-column binary progress coloring and `|| 2` / `|| 3` option
defaults. -/
def drawDots (dpr : ℚ) (canvas : Canvas) (peaks : List ℚ) (progress : ℚ)
    (options : DrawOpts) : List DrawCmd :=
  let barWidth := (if options.barWidth = 0 then 2 else options.barWidth) * dpr
  let barSpacing :=
    (if options.barSpacing = 0 then 3 else options.barSpacing) * dpr
  let barCount := fitColumns canvas.width barWidth barSpacing
  let resampledPeaks := resampleData peaks barCount
  let height := canvas.height
  let dotRadius := max (1.5 * dpr) (barWidth / 2)
  let progressWidth := progress * canvas.width
  let centerY := height / 2
  [DrawCmd.clearRect 0 0 canvas.width canvas.height] ++
  (((List.range resampledPeaks.length).takeWhile
      (fun (i : ℕ) => ¬ ((i : ℚ) * (barWidth + barSpacing) + barWidth / 2 >
        canvas.width))).map
    (fun (i : ℕ) =>
      let x := (i : ℚ) * (barWidth + barSpacing) + barWidth / 2
      let peakHeight := resampledPeaks.getD i 0 * height * 0.9
      let color := if x < progressWidth then options.progressColor
        else options.color
      [DrawCmd.circle x (centerY - peakHeight / 2) dotRadius color,
       DrawCmd.circle x (centerY + peakHeight / 2) dotRadius color])).flatten

/-- `drawLine`: oscilloscope grid, then a full base curve and (when
`progress > 0`) a glowing progress curve truncated at
`Math.floor(peaks.length * progress)` — both built from the *raw*
envelope, never resampled.  `sinf` is the host's `Math.sin`. -/
def drawLine (sinf : ℚ → ℚ) (canvas : Canvas) (peaks : List ℚ)
    (progress : ℚ) (options : DrawOpts) : List DrawCmd :=
  let width := canvas.width
  let height := canvas.height
  let centerY := height / 2
  let amplitude := height * 0.35
  let drawCurve := fun (color : String) (lineWidth : ℚ) (endProgress : ℚ)
      (addGlow : Bool) =>
    let samples := (Int.floor ((peaks.length : ℚ) * endProgress)).toNat
    let points := (List.range samples).map (fun (i : ℕ) =>
      ((i : ℚ) / ((peaks.length : ℚ) - 1) * width,
       centerY + sinf ((i : ℚ) * 0.1) * peaks.getD i 0 * amplitude))
    [DrawCmd.moveTo 0 centerY] ++
    ((List.range (points.length - 1)).map (fun (i : ℕ) =>
      let p := points.getD i (0, 0)
      let q := points.getD (i + 1) (0, 0)
      DrawCmd.bezierTo (p.1 + (q.1 - p.1) * 0.5) p.2
        (q.1 - (q.1 - p.1) * 0.5) q.2 q.1 q.2)) ++
    [DrawCmd.strokePath color lineWidth addGlow]
  [DrawCmd.clearRect 0 0 width height,
   DrawCmd.strokeSeg 0 centerY width centerY "rgba(255, 255, 255, 0.03)"
     (1/2)] ++
  ((List.range 11).map (fun (i : ℕ) =>
     DrawCmd.strokeSeg (width / 10 * (i : ℚ)) 0 (width / 10 * (i : ℚ))
       height "rgba(255, 255, 255, 0.03)" (1/2))) ++
  drawCurve options.color 2 1 false ++
  (if progress > 0 then drawCurve options.progressColor 3 progress true
   else [])

/-- `drawSeekbar`: a rounded background track, and when `progress > 0` a
rounded progress fill plus a two-circle handle — the envelope is never
consulted. -/
def drawSeekbar (canvas : Canvas) (_peaks : List ℚ) (progress : ℚ)
    (options : DrawOpts) : List DrawCmd :=
  let width := canvas.width
  let height := canvas.height
  let centerY := height / 2
  let barHeight : ℚ := 4
  let borderRadius := barHeight / 2
  let baseColor := if options.color = "" then "rgba(255, 255, 255, 0.2)"
    else options.color
  let progColor := if options.progressColor = "" then
    "rgba(255, 255, 255, 0.9)" else options.progressColor
  [DrawCmd.clearRect 0 0 width height,
   DrawCmd.roundedRect borderRadius (width - borderRadius) centerY
     barHeight baseColor false] ++
  (if progress > 0 then
    let progressWidth := max (borderRadius * 2) (progress * width)
    [DrawCmd.roundedRect borderRadius (progressWidth - borderRadius)
       centerY barHeight progColor true,
     DrawCmd.circle progressWidth centerY 8 "#ffffff",
     DrawCmd.circle progressWidth centerY (8 * 0.4) progColor]
   else [])

/-- The `DRAWING_STYLES` dispatch with the `|| drawBars` fallback. -/
def draw (sinf : ℚ → ℚ) (dpr : ℚ) (canvas : Canvas) (peaks : List ℚ)
    (progress : ℚ) (options : DrawOpts) : List DrawCmd :=
  if options.waveformStyle = "bars" then
    drawBars dpr canvas peaks progress options
  else if options.waveformStyle = "mirror" then
    drawMirror dpr canvas peaks progress options
  else if options.waveformStyle = "line" then
    drawLine sinf canvas peaks progress options
  else if options.waveformStyle = "blocks" then
    drawBlocks dpr canvas peaks progress options
  else if options.waveformStyle = "dots" then
    drawDots dpr canvas peaks progress options
  else if options.waveformStyle = "seekbar" then
    drawSeekbar canvas peaks progress options
  else drawBars dpr canvas peaks progress options

/-- **C4 (amended).** The four bar-based routines (bars, mirror, blocks,
dots) depend on the envelope only through its resampling to the column
count fitting the surface (with blocks/dots using their own option
defaults); seekbar ignores the envelope entirely.  `drawLine` is *not*
in this list: it consumes the raw envelope (see the counterexample). -/
theorem bar_styles_resample_factoring (dpr : ℚ) (canvas : Canvas)
    (progress : ℚ) (options : DrawOpts) (peaks₁ peaks₂ : List ℚ) :
    (resampleData peaks₁ (fitColumns canvas.width (options.barWidth * dpr)
        (options.barSpacing * dpr)) =
      resampleData peaks₂ (fitColumns canvas.width (options.barWidth * dpr)
        (options.barSpacing * dpr)) →
      drawBars dpr canvas peaks₁ progress options =
        drawBars dpr canvas peaks₂ progress options ∧
      drawMirror dpr canvas peaks₁ progress options =
        drawMirror dpr canvas peaks₂ progress options) ∧
    (resampleData peaks₁ (fitColumns canvas.width
        ((if options.barWidth = 0 then 3 else options.barWidth) * dpr)
        ((if options.barSpacing = 0 then 1 else options.barSpacing) * dpr)) =
      resampleData peaks₂ (fitColumns canvas.width
        ((if options.barWidth = 0 then 3 else options.barWidth) * dpr)
        ((if options.barSpacing = 0 then 1 else options.barSpacing) * dpr)) →
      drawBlocks dpr canvas peaks₁ progress options =
        drawBlocks dpr canvas peaks₂ progress options) ∧
    (resampleData peaks₁ (fitColumns canvas.width
        ((if options.barWidth = 0 then 2 else options.barWidth) * dpr)
        ((if options.barSpacing = 0 then 3 else options.barSpacing) * dpr)) =
      resampleData peaks₂ (fitColumns canvas.width
        ((if options.barWidth = 0 then 2 else options.barWidth) * dpr)
        ((if options.barSpacing = 0 then 3 else options.barSpacing) * dpr)) →
      drawDots dpr canvas peaks₁ progress options =
        drawDots dpr canvas peaks₂ progress options) ∧
    drawSeekbar canvas peaks₁ progress options =
      drawSeekbar canvas peaks₂ progress options := by
  refine ⟨fun h => ⟨?_, ?_⟩, fun h => ?_, fun h => ?_, rfl⟩
  · rw [drawBars, drawBars, h]
  · rw [drawMirror, drawMirror, h]
  · rw [drawBlocks, drawBlocks, h]
  · rw [drawDots, drawDots, h]

def lineCanvas : Canvas := ⟨6, 2⟩

def lineOpts : DrawOpts := ⟨2, 1, "base", "prog", "line"⟩

/-- **C4 counterexample.** `[0,1,0,1]` and `[1,1]` resample identically
to the 2 columns that fit `lineCanvas`, yet `drawLine` draws different
command traces from them (4 curve points versus 2): the line routine does
*not* resample the envelope before drawing.  (Stated for the host sine
`fun _ => 0`; the traces differ for every host sine, as they contain a
different number of Bézier segments.) -/
theorem drawLine_does_not_resample :
    resampleData [0, 1, 0, 1]
        (fitColumns lineCanvas.width (lineOpts.barWidth * 1)
          (lineOpts.barSpacing * 1)) =
      resampleData [1, 1]
        (fitColumns lineCanvas.width (lineOpts.barWidth * 1)
          (lineOpts.barSpacing * 1)) ∧
    drawLine (fun _ => 0) lineCanvas [0, 1, 0, 1] 0 lineOpts ≠
      drawLine (fun _ => 0) lineCanvas [1, 1] 0 lineOpts := by
  constructor <;> decide

/-- **C4 witness.** The factoring statement applied to the concrete
envelopes `[0,1,0,1]` and `[1,1]` on a 6×2 surface with bar width 2 and
spacing 1, all hypotheses discharged by evaluation. -/
theorem bar_styles_resample_factoring_witness :
    (drawBars 1 lineCanvas [0, 1, 0, 1] 0 lineOpts =
       drawBars 1 lineCanvas [1, 1] 0 lineOpts ∧
     drawMirror 1 lineCanvas [0, 1, 0, 1] 0 lineOpts =
       drawMirror 1 lineCanvas [1, 1] 0 lineOpts) ∧
    drawBlocks 1 lineCanvas [0, 1, 0, 1] 0 lineOpts =
      drawBlocks 1 lineCanvas [1, 1] 0 lineOpts ∧
    drawDots 1 lineCanvas [0, 1, 0, 1] 0 lineOpts =
      drawDots 1 lineCanvas [1, 1] 0 lineOpts ∧
    drawSeekbar lineCanvas [0, 1, 0, 1] 0 lineOpts =
      drawSeekbar lineCanvas [1, 1] 0 lineOpts := by
  obtain ⟨h1, h2, h3, h4⟩ :=
    bar_styles_resample_factoring 1 lineCanvas 0 lineOpts [0, 1, 0, 1] [1, 1]
  exact ⟨h1 (by decide), h2 (by decide), h3 (by decide), h4⟩

/-! ## The exclusivity registry of `WaveformPlayer` (`src/js/core.js`)

`WaveformPlayer.currentlyPlaying` is the single process-wide registry
slot.  A system of `n` live players is modelled by each player's
`isPlaying` flag plus the registry; `singlePlay` is per-player
configuration.  The media element's `play`/`pause` events are delivered
synchronously (single-threaded callback chain), so `audio.play()` /
`audio.pause()` set `isPlaying` directly.  The modelled actions are the
public `play()` and `pause()` methods and the `ended` media event (which
runs the pause *handler* — clearing `isPlaying` — without touching the
registry). -/

structure PlayerSys (n : ℕ) where
  playing : Fin n → Bool
  holder : Option (Fin n)

/-- `pause()`: clear the registry slot if this player holds it, then
pause the media element (the pause event sets `isPlaying = false`). -/
def jsPause {n : ℕ} (s : PlayerSys n) (i : Fin n) : PlayerSys n :=
  { playing := Function.update s.playing i false,
    holder := if s.holder = some i then none else s.holder }

/-- `play()`: if this player is in single-play mode and a *different*
player holds the registry slot, pause that player first; then take the
slot and start the media element (the play event sets
`isPlaying = true`). -/
def jsPlay {n : ℕ} (cfg : Fin n → Bool) (s : PlayerSys n) (i : Fin n) :
    PlayerSys n :=
  let s1 := match s.holder with
    | some b => if cfg i = true ∧ b ≠ i then jsPause s b else s
    | none => s
  { playing := Function.update s1.playing i true, holder := some i }

/-- The `ended` handler: resets progress and runs the pause *handler*
(`isPlaying = false`), leaving the registry untouched. -/
def jsEnded {n : ℕ} (s : PlayerSys n) (i : Fin n) : PlayerSys n :=
  { playing := Function.update s.playing i false, holder := s.holder }

/-- States reachable from the initial system (no player playing, empty
registry) through the modelled actions. -/
inductive Reachable {n : ℕ} (cfg : Fin n → Bool) : PlayerSys n → Prop where
  | init : Reachable cfg ⟨fun _ => false, none⟩
  | play {s : PlayerSys n} (i : Fin n) :
      Reachable cfg s → Reachable cfg (jsPlay cfg s i)
  | pause {s : PlayerSys n} (i : Fin n) :
      Reachable cfg s → Reachable cfg (jsPause s i)
  | ended {s : PlayerSys n} (i : Fin n) :
      Reachable cfg s → Reachable cfg (jsEnded s i)

/-- Every playing player holds the registry slot — the inductive
invariant, valid when every player is in single-play mode. -/
theorem playing_implies_holder {n : ℕ} {cfg : Fin n → Bool}
    {s : PlayerSys n} (hall : ∀ i, cfg i = true) (hr : Reachable cfg s) :
    ∀ j, s.playing j = true → s.holder = some j := by
  induction hr with
  | init => intro j h; simp at h
  | @play s i _ ih =>
    intro j hj
    simp only [jsPlay] at hj ⊢
    by_cases hij : j = i
    · rw [hij]
    · exfalso
      rcases hh : s.holder with _ | b
      · rw [hh] at hj
        dsimp only at hj
        rw [Function.update_noteq hij] at hj
        have hcon := ih j hj
        rw [hh] at hcon
        cases hcon
      · rw [hh] at hj
        dsimp only at hj
        by_cases hsp : cfg i = true ∧ b ≠ i
        · rw [if_pos hsp, Function.update_noteq hij] at hj
          simp only [jsPause] at hj
          by_cases hjb : j = b
          · rw [hjb, Function.update_same] at hj
            cases hj
          · rw [Function.update_noteq hjb] at hj
            have hcon := ih j hj
            rw [hh] at hcon
            injection hcon with hcon
            exact hjb hcon.symm
        · rw [if_neg hsp, Function.update_noteq hij] at hj
          have hcon := ih j hj
          rw [hh] at hcon
          injection hcon with hcon
          exact hsp ⟨hall i, fun hbi => hij (hcon.symm.trans hbi)⟩
  | @pause s i _ ih =>
    intro j hj
    simp only [jsPause] at hj ⊢
    by_cases hij : j = i
    · rw [hij, Function.update_same] at hj
      cases hj
    · rw [Function.update_noteq hij] at hj
      have hh := ih j hj
      have hne : ¬ s.holder = some i := by
        rw [hh]
        simp only [Option.some.injEq]
        exact fun h => hij h
      rw [if_neg hne]
      exact hh
  | @ended s i _ ih =>
    intro j hj
    simp only [jsEnded] at hj ⊢
    by_cases hij : j = i
    · rw [hij, Function.update_same] at hj
      cases hj
    · rw [Function.update_noteq hij] at hj
      exact ih j hj

/-- **C1.** Single-play exclusivity: if player `B` holds the registry and
a different single-play player `A` calls `play()`, afterwards `B` is
paused, `A` is playing, and `A` is the sole holder; and in every
reachable state of an all-single-play system, at most one player is
playing. -/
theorem singlePlay_exclusivity {n : ℕ} (cfg : Fin n → Bool)
    (s : PlayerSys n) (A B : Fin n) (hall : ∀ i, cfg i = true)
    (hB : s.holder = some B) (hAB : A ≠ B) :
    ((jsPlay cfg s A).playing B = false ∧
     (jsPlay cfg s A).playing A = true ∧
     (jsPlay cfg s A).holder = some A) ∧
    (∀ s' : PlayerSys n, Reachable cfg s' →
      ∀ j k, s'.playing j = true → s'.playing k = true → j = k) := by
  have hBA : B ≠ A := Ne.symm hAB
  constructor
  · simp only [jsPlay, hB]
    rw [if_pos (And.intro (hall A) hBA)]
    refine ⟨?_, ?_, by trivial⟩
    · rw [Function.update_noteq hBA]
      simp only [jsPause]
      rw [Function.update_same]
    · rw [Function.update_same]
  · intro s' hr j k hj hk
    have h1 := playing_implies_holder hall hr j hj
    have h2 := playing_implies_holder hall hr k hk
    rw [h1] at h2
    injection h2

/-- **C1 witness.** A two-player system: from the initial state, player 1
plays (becoming the holder), then player 0 plays; player 1 ends up
paused, player 0 playing and holding. -/
theorem singlePlay_exclusivity_witness :
    ((jsPlay (fun _ => true)
        (jsPlay (fun _ => true) ⟨fun _ => false, none⟩ (1 : Fin 2)) 0).playing
        1 = false ∧
     (jsPlay (fun _ => true)
        (jsPlay (fun _ => true) ⟨fun _ => false, none⟩ (1 : Fin 2)) 0).playing
        0 = true ∧
     (jsPlay (fun _ => true)
        (jsPlay (fun _ => true) ⟨fun _ => false, none⟩ (1 : Fin 2)) 0).holder
        = some 0) ∧
    (∀ s' : PlayerSys 2, Reachable (fun _ => true) s' →
      ∀ j k, s'.playing j = true → s'.playing k = true → j = k) :=
  singlePlay_exclusivity (fun _ => true)
    (jsPlay (fun _ => true) ⟨fun _ => false, none⟩ (1 : Fin 2)) 0 1
    (fun _ => rfl) (by decide) (by decide)

/-! ## Pre-supplied waveform strings (`setWaveformData`, `src/js/core.js`)

`setWaveformData` first tries `JSON.parse`; a successful parse that is
not an array yields the empty envelope, while a parse *failure* falls
back to `data.split(",").map(Number)` — one entry per comma-separated
piece, `NaN` for a non-numeric piece.  Strings are modelled as `List
Char`; a JS number that is `NaN` is modelled as `none`.  The JSON
grammar is modelled per ECMA-404 (objects, arrays, strings with escapes,
numbers, literals); `Number(piece)` is modelled for whitespace/empty
(`0`) and decimal literals, which suffices here because the claims under
study depend only on the parse succeeding or failing and on the shape of
the result list. -/

def isJsonWs (c : Char) : Bool :=
  c = ' ' ∨ c = '\t' ∨ c = '\n' ∨ c = '\r'

def skipWs : List Char → List Char
  | [] => []
  | c :: rest => if isJsonWs c then skipWs rest else c :: rest

/-- Longest leading run of decimal digits, and the remainder. -/
def takeDigits : List Char → List Char × List Char
  | [] => ([], [])
  | c :: rest =>
    if c.isDigit then
      let (ds, r) := takeDigits rest
      (c :: ds, r)
    else ([], c :: rest)

def digitsVal (ds : List Char) : ℕ :=
  ds.foldl (fun a c => a * 10 + (c.toNat - 48)) 0

/-- JSON `frac` part: `.` followed by at least one digit, or nothing. -/
def parseFrac : List Char → Option (ℚ × List Char)
  | '.' :: r =>
    match takeDigits r with
    | ([], _) => none
    | (ds, rest) => some ((digitsVal ds : ℚ) / (10 : ℚ) ^ ds.length, rest)
  | s => some (0, s)

def parseExpAux (s : List Char) : Option (ℤ × List Char) :=
  let (sgn, s1) : ℤ × List Char :=
    match s with
    | '+' :: r => (1, r)
    | '-' :: r => (-1, r)
    | _ => (1, s)
  match takeDigits s1 with
  | ([], _) => none
  | (ds, rest) => some (sgn * (digitsVal ds : ℤ), rest)

/-- JSON `exp` part: `e`/`E` with optional sign and digits, or nothing. -/
def parseExp : List Char → Option (ℤ × List Char)
  | 'e' :: r => parseExpAux r
  | 'E' :: r => parseExpAux r
  | s => some (0, s)

/-- A JSON number: `-? (0 | [1-9][0-9]*) frac? exp?`. -/
def parseJsonNumber (s : List Char) : Option (ℚ × List Char) :=
  let (neg, s1) : Bool × List Char :=
    match s with
    | '-' :: r => (true, r)
    | _ => (false, s)
  match takeDigits s1 with
  | ([], _) => none
  | (ds, r1) =>
    if 1 < ds.length ∧ ds.headI = '0' then none
    else
      match parseFrac r1 with
      | none => none
      | some (fr, r2) =>
        match parseExp r2 with
        | none => none
        | some (ex, r3) =>
          let mag : ℚ := ((digitsVal ds : ℚ) + fr) * (10 : ℚ) ^ ex
          some (if neg then -mag else mag, r3)

def isHexDigit (c : Char) : Bool :=
  c.isDigit ∨ ('a' ≤ c ∧ c ≤ 'f') ∨ ('A' ≤ c ∧ c ≤ 'F')

/-- Scan a JSON string body after the opening quote; returns the content
(escape sequences kept as their escape character, which is irrelevant to
the claims under study) and the remainder after the closing quote. -/
def scanString : List Char → Option (List Char × List Char)
  | [] => none
  | '"' :: rest => some ([], rest)
  | '\\' :: c :: rest =>
    if c = 'u' then
      match rest with
      | h1 :: h2 :: h3 :: h4 :: r =>
        if isHexDigit h1 ∧ isHexDigit h2 ∧ isHexDigit h3 ∧ isHexDigit h4
        then
          match scanString r with
          | some (out, r2) => some (c :: out, r2)
          | none => none
        else none
      | _ => none
    else if c = '"' ∨ c = '\\' ∨ c = '/' ∨ c = 'b' ∨ c = 'f' ∨ c = 'n' ∨
        c = 'r' ∨ c = 't' then
      match scanString rest with
      | some (out, r2) => some (c :: out, r2)
      | none => none
    else none
  | c :: rest =>
    if c.toNat < 32 then none
    else
      match scanString rest with
      | some (out, r2) => some (c :: out, r2)
      | none => none

inductive Json where
  | null
  | bool (b : Bool)
  | num (q : ℚ)
  | str (s : List Char)
  | arr (elems : List Json)
  | obj (fields : List (List Char × Json))

/-- Comma-separated array tail: parse an element with `pv`, then `,` and
more elements or `]`. -/
def parseListRest (pv : List Char → Option (Json × List Char)) :
    ℕ → List Char → Option (List Json × List Char)
  | 0, _ => none
  | fuel + 1, s =>
    match pv s with
    | none => none
    | some (v, r) =>
      match skipWs r with
      | ',' :: r2 =>
        match parseListRest pv fuel r2 with
        | some (vs, r3) => some (v :: vs, r3)
        | none => none
      | ']' :: r2 => some ([v], r2)
      | _ => none

/-- Object member tail: `"key" : value` pairs separated by `,` up to
`}`. -/
def parseFieldsRest (pv : List Char → Option (Json × List Char)) :
    ℕ → List Char → Option (List (List Char × Json) × List Char)
  | 0, _ => none
  | fuel + 1, s =>
    match skipWs s with
    | '"' :: r =>
      match scanString r with
      | none => none
      | some (key, r1) =>
        match skipWs r1 with
        | ':' :: r2 =>
          match pv r2 with
          | none => none
          | some (v, r3) =>
            match skipWs r3 with
            | ',' :: r4 =>
              match parseFieldsRest pv fuel r4 with
              | some (fs, r5) => some ((key, v) :: fs, r5)
              | none => none
            | '}' :: r4 => some ([(key, v)], r4)
            | _ => none
        | _ => none
    | _ => none

/-- A JSON value, by recursive descent with a fuel bound on the nesting
depth. -/
def parseValue : ℕ → List Char → Option (Json × List Char)
  | 0, _ => none
  | fuel + 1, s =>
    match skipWs s with
    | [] => none
    | c :: rest =>
      if c = 'n' then
        match rest with
        | 'u' :: 'l' :: 'l' :: r => some (Json.null, r)
        | _ => none
      else if c = 't' then
        match rest with
        | 'r' :: 'u' :: 'e' :: r => some (Json.bool true, r)
        | _ => none
      else if c = 'f' then
        match rest with
        | 'a' :: 'l' :: 's' :: 'e' :: r => some (Json.bool false, r)
        | _ => none
      else if c = '"' then
        match scanString rest with
        | some (out, r) => some (Json.str out, r)
        | none => none
      else if c = '[' then
        match skipWs rest with
        | ']' :: r => some (Json.arr [], r)
        | s2 =>
          match parseListRest (parseValue fuel) fuel s2 with
          | some (vs, r) => some (Json.arr vs, r)
          | none => none
      else if c = '{' then
        match skipWs rest with
        | '}' :: r => some (Json.obj [], r)
        | s2 =>
          match parseFieldsRest (parseValue fuel) fuel s2 with
          | some (fs, r) => some (Json.obj fs, r)
          | none => none
      else
        match parseJsonNumber (c :: rest) with
        | some (q, r) => some (Json.num q, r)
        | none => none

/-- `JSON.parse`: a single value followed only by whitespace. -/
def jsonParse (s : List Char) : Option Json :=
  match parseValue (s.length + 1) s with
  | some (v, rest) => if (skipWs rest).isEmpty then some v else none
  | none => none

/-- `data.split(",")`: always at least one piece. -/
def splitOnComma : List Char → List (List Char)
  | [] => [[]]
  | ',' :: rest => [] :: splitOnComma rest
  | c :: rest =>
    match splitOnComma rest with
    | [] => [[c]]
    | p :: ps => (c :: p) :: ps

/-- `Number(piece)` (`none` = `NaN`): trimmed-empty is `0`; otherwise an
optionally signed decimal literal (`d+`, `d+.d*`, `.d+`, optional
exponent) must consume the whole piece. -/
def jsNumber (s : List Char) : Option ℚ :=
  let t := (skipWs s).reverse
  let t := (skipWs t).reverse
  if t.isEmpty then some 0
  else
    let (neg, s1) : Bool × List Char :=
      match t with
      | '-' :: r => (true, r)
      | '+' :: r => (false, r)
      | _ => (false, t)
    match takeDigits s1 with
    | ([], r1) =>
      match r1 with
      | '.' :: r2 =>
        match takeDigits r2 with
        | ([], _) => none
        | (ds, r3) =>
          match parseExp r3 with
          | some (ex, []) =>
            let mag : ℚ :=
              (digitsVal ds : ℚ) / (10 : ℚ) ^ ds.length * (10 : ℚ) ^ ex
            some (if neg then -mag else mag)
          | _ => none
      | _ => none
    | (ds, r1) =>
      match parseFrac r1 with
      | none => none
      | some (fr, r2) =>
        match parseExp r2 with
        | some (ex, []) =>
          let mag : ℚ := ((digitsVal ds : ℚ) + fr) * (10 : ℚ) ^ ex
          some (if neg then -mag else mag)
        | _ => none

/-- A parsed JSON array element as a stored envelope entry: numbers keep
their value, any non-numeric element stands in as `NaN` (`none`). -/
def jsonNum : Json → Option ℚ
  | Json.num q => some q
  | _ => none

/-- The string branch of `setWaveformData`: `JSON.parse` into an array if
possible, the empty envelope for parsed non-arrays, and
`split(",").map(Number)` when the parse throws. -/
def setWaveformData (s : List Char) : List (Option ℚ) :=
  match jsonParse s with
  | some j =>
    match j with
    | Json.arr elems => elems.map jsonNum
    | _ => []
  | none => (splitOnComma s).map jsNumber

theorem splitOnComma_ne_nil (s : List Char) : splitOnComma s ≠ [] := by
  induction s with
  | nil => simp [splitOnComma]
  | cons c rest ih =>
    rw [splitOnComma.eq_def]
    split
    · simp
    · simp
    · split
      · simp
      · simp

/-- **C8 (amended).** A pre-supplied waveform string that parses as JSON
but *not* as an array is normalized to the empty envelope; a string on
which `JSON.parse` fails is instead set to `split(",").map(Number)` —
one (possibly-`NaN`) entry per comma piece — which is never the empty
envelope.  In particular a fully unparseable string does *not* become
the empty envelope, so placeholder generation is not triggered for it. -/
theorem setWaveformData_string_normalization (s : List Char) :
    (jsonParse s = none →
      setWaveformData s = (splitOnComma s).map jsNumber ∧
      setWaveformData s ≠ []) ∧
    (∀ j, jsonParse s = some j → (∀ xs, j ≠ Json.arr xs) →
      setWaveformData s = []) ∧
    (∀ xs, jsonParse s = some (Json.arr xs) →
      setWaveformData s = xs.map jsonNum) := by
  refine ⟨fun h => ⟨?_, ?_⟩, fun j hj hne => ?_, fun xs hxs => ?_⟩
  · rw [setWaveformData, h]
  · rw [setWaveformData, h]
    intro hcon
    exact splitOnComma_ne_nil s (List.map_eq_nil_iff.mp hcon)
  · rw [setWaveformData, hj]
    cases j with
    | arr xs => exact absurd rfl (hne xs)
    | null => rfl
    | bool b => rfl
    | num q => rfl
    | str t => rfl
    | obj f => rfl
  · rw [setWaveformData, hxs]

/-- **C8 counterexample.** `"abc"` parses neither as JSON nor as a
comma-separated list of numbers, yet `setWaveformData` yields `[NaN]`
(a one-element envelope), not the claimed empty envelope. -/
theorem setWaveformData_abc_not_empty :
    jsonParse ("abc".data) = none ∧
    jsNumber ("abc".data) = none ∧
    setWaveformData ("abc".data) = [none] ∧
    ([none] : List (Option ℚ)) ≠ [] := by
  refine ⟨Option.isNone_iff_eq_none.mp (by decide), by decide, by decide,
    by decide⟩

/-- **C8 witness.** The amended statement applied to the unparseable
string `"xyz"`. -/
theorem setWaveformData_string_normalization_witness :
    setWaveformData ("xyz".data) =
      (splitOnComma ("xyz".data)).map jsNumber ∧
    setWaveformData ("xyz".data) ≠ [] :=
  (setWaveformData_string_normalization ("xyz".data)).1
    (Option.isNone_iff_eq_none.mp (by decide))
